import Mathlib

/-!
Verification development for the quickdraw real-time entity synchronization
layer.  The definitions below are a shallow embedding of the TypeScript
source: `src/src/server/BaseService.ts` (access control, subscriber registry,
field filtering, CRUD emission), the `ServiceRegistry` method dispatcher,
`src/src/client/QuickdrawProvider.tsx` (client subscription registry) and
`src/src/client/useSubscription.ts` (client cache bridge).  JavaScript
objects are modelled as ordered association lists, `Map`/`Set` state as
association lists with first-match operations (a `Map` has unique keys, so
first-match coincides with `Map` semantics), thrown exceptions as
`Except String`, and the asynchronous persistence delegate as a total
function into `Option`.
-/

namespace Quickdraw

/-- Access levels, from shared/types: `"Public" | "Read" | "Moderate" | "Admin"`. -/
inductive AccessLevel where
  | Public
  | Read
  | Moderate
  | Admin
deriving DecidableEq, Repr

/-- The `order` map inside `BaseService.isLevelSufficient`:
Public 0, Read 1, Moderate 2, Admin 3. -/
def AccessLevel.order : AccessLevel → Nat
  | .Public => 0
  | .Read => 1
  | .Moderate => 2
  | .Admin => 3

/-- `isLevelSufficient(userLevel, requiredLevel)`:
`order[userLevel] >= order[requiredLevel]` (the `?? 0` fallbacks are
unreachable because every level is in the map). -/
def isLevelSufficient (userLevel requiredLevel : AccessLevel) : Bool :=
  decide (AccessLevel.order requiredLevel ≤ AccessLevel.order userLevel)

/-- An access control entry, shared/types `ACE = { userId, level }`. -/
structure ACE where
  userId : String
  level : AccessLevel
deriving DecidableEq, Repr

/-- A JSON-ish field value of an entity or update payload. -/
inductive Val where
  | vStr : String → Val
  | vBool : Bool → Val
  | vNum : Int → Val
  | vAcl : List ACE → Val
deriving DecidableEq, Repr

/-- A JavaScript object: ordered fields, modelled as an association list. -/
abbrev Obj := List (String × Val)

/-- Generic first-match lookup in a string-keyed association list
(JS object property read / `Map.get`). -/
def alistLookup {α : Type} (k : String) : List (String × α) → Option α
  | [] => none
  | kv :: rest => if kv.1 = k then some kv.2 else alistLookup k rest

/-- Replace the value stored at `k` (JS `Map.set` on an existing key /
in-place mutation of the stored object); no-op when `k` is absent. -/
def alistSet {α : Type} (k : String) (v : α) : List (String × α) → List (String × α)
  | [] => []
  | kv :: rest => if kv.1 = k then (k, v) :: rest else kv :: alistSet k v rest

/-- Remove the entry stored at `k` (JS `Map.delete`). -/
def alistDelete {α : Type} (k : String) : List (String × α) → List (String × α)
  | [] => []
  | kv :: rest => if kv.1 = k then rest else kv :: alistDelete k rest

/-- Field lookup on an object. -/
def lookupVal (k : String) (o : Obj) : Option Val :=
  alistLookup k o

/-- JS truthiness for our value model. -/
def truthyVal : Val → Bool
  | .vStr s => decide (s ≠ "")
  | .vBool b => b
  | .vNum n => decide (n ≠ 0)
  | .vAcl _ => true

/-- JS truthiness of `string | undefined` (`if (socket.userId)` etc.). -/
def strTruthy : Option String → Bool
  | none => false
  | some s => decide (s ≠ "")

/-- Truthiness of a field read, `if (obj.k)`. -/
def truthyLookup (k : String) (o : Obj) : Bool :=
  match lookupVal k o with
  | some v => truthyVal v
  | none => false

/-- The per-connection state of a `QuickdrawSocket`: socket id, optional
authenticated user id, and the per-service access-level record. -/
structure Socket where
  id : String
  userId : Option String := none
  serviceAccess : List (String × AccessLevel) := []
deriving DecidableEq, Repr

/-- Static configuration and the overridable hooks of a `BaseService`
instance: `serviceName`, `hasEntryACL` (default `false`), the `checkAccess`
hook (base-class default: deny), and `getProtectedFields()` (base-class
default: `["email", "serviceAccess"]`). -/
structure Service where
  serviceName : String
  hasEntryACL : Bool := false
  checkAccess : String → String → AccessLevel → Socket → Bool := fun _ _ _ _ => false
  protectedFields : List String := ["email", "serviceAccess"]

/-- The persistence delegate (`findUnique` by id), modelled as a total
function into `Option`; a thrown persistence error is folded into `none`
because every caller catches it. -/
abbrev DB := String → Option Obj

/-- `hasServiceAccess`: look up `socket.serviceAccess?.[serviceName]`;
absent (JS falsy) means `false`, otherwise compare levels. -/
def hasServiceAccess (svc : Service) (socket : Socket) (requiredLevel : AccessLevel) : Bool :=
  match alistLookup svc.serviceName socket.serviceAccess with
  | none => false
  | some userLevel => isLevelSufficient userLevel requiredLevel

/-- The `acl` field of an entity, when present and an array
(`if (!acl || !Array.isArray(acl)) return false`). -/
def entityAcl (entity : Obj) : Option (List ACE) :=
  match lookupVal "acl" entity with
  | some (.vAcl acl) => some acl
  | _ => none

/-- `checkEntryACL`: fetch the entity, read its `acl`, find the first entry
for `userId`, compare levels; every failure (including a thrown persistence
error, caught in the source) yields `false`. -/
def checkEntryACL (db : DB) (userId entryId : String) (requiredLevel : AccessLevel) : Bool :=
  match db entryId with
  | none => false
  | some entity =>
    match entityAcl entity with
    | none => false
    | some acl =>
      match acl.find? (fun a => decide (a.userId = userId)) with
      | none => false
      | some ace => isLevelSufficient ace.level requiredLevel

/-- `checkSubscriptionAccess`: service-level grant, then the `checkAccess`
hook, then (only if `hasEntryACL`) the entry-level ACL. -/
def checkSubscriptionAccess (svc : Service) (db : DB) (userId entryId : String)
    (requiredLevel : AccessLevel) (socket : Socket) : Bool :=
  if hasServiceAccess svc socket requiredLevel then true
  else if svc.checkAccess userId entryId requiredLevel socket then true
  else if svc.hasEntryACL then checkEntryACL db userId entryId requiredLevel
  else false

/-- `ensureAccessForMethod`: `Public` always passes; unauthenticated throws;
a service-level grant passes; for a truthy `entryId` the `checkAccess` hook
and (if `hasEntryACL`) the entry ACL are tried before throwing; without an
entry id, `Read` passes for any authenticated peer and anything higher
throws. -/
def ensureAccessForMethod (svc : Service) (db : DB) (requiredLevel : AccessLevel)
    (socket : Socket) (entryId? : Option String) : Except String Unit :=
  if requiredLevel = .Public then .ok ()
  else if strTruthy socket.userId = false then .error "Authentication required"
  else if hasServiceAccess svc socket requiredLevel then .ok ()
  else if strTruthy entryId? then
    let userId := socket.userId.getD ""
    let entryId := entryId?.getD ""
    if svc.checkAccess userId entryId requiredLevel socket then .ok ()
    else if svc.hasEntryACL && checkEntryACL db userId entryId requiredLevel then .ok ()
    else .error "Insufficient permissions"
  else if requiredLevel = .Read then .ok ()
  else .error "Insufficient permissions"

/-- Remove one key from an object (JS `delete result[field]`). -/
def removeKey (f : String) (o : Obj) : Obj :=
  o.filter (fun kv => decide (kv.1 ≠ f))

/-- Delete each field of `fields` in turn (the loop in
`stripProtectedFields`, acting on the fresh copy). -/
def deleteFields (fields : List String) (o : Obj) : Obj :=
  match fields with
  | [] => o
  | f :: rest => deleteFields rest (removeKey f o)

/-- `stripProtectedFields`: shallow-copy the entity and delete every
protected field from the copy.  The pure result is the copy; the
store-level operation `stripProtectedFieldsOp` below models the heap
behaviour (fresh allocation, argument untouched). -/
def stripProtectedFields (svc : Service) (o : Obj) : Obj :=
  deleteFields svc.protectedFields o

/-- `hasElevatedAccess` (base-class default): owner
(`socket.userId === entryId`) or service-level Admin. -/
def hasElevatedAccess (svc : Service) (socket : Socket) (entryId : String) : Bool :=
  decide (socket.userId = some entryId) || hasServiceAccess svc socket .Admin

/-- `filterEntityForSubscriber` (base-class default): full entity for
elevated subscribers, stripped otherwise. -/
def filterEntityForSubscriber (svc : Service) (entity : Obj) (socket : Socket)
    (entryId : String) : Obj :=
  if hasElevatedAccess svc socket entryId then entity
  else stripProtectedFields svc entity

/-- The server-side subscriber registry `Map<string, Set<QuickdrawSocket>>`,
as an association list of subscriber lists (a `Set` iterated in insertion
order, no duplicates for reachable states). -/
abbrev Registry := List (String × List Socket)

/-- The registration step of `subscribe`: lazily create the per-entry set,
then `Set.add` the socket (idempotent). -/
def regAdd (reg : Registry) (entryId : String) (socket : Socket) : Registry :=
  match alistLookup entryId reg with
  | none => reg ++ [(entryId, [socket])]
  | some subs => alistSet entryId (if socket ∈ subs then subs else subs ++ [socket]) reg

/-- `unsubscribe`: if the entry is tracked, `Set.delete` the socket and
prune the key when the set is now empty.  The `socket.leave(room)` call is
a transport-side effect outside the registry state. -/
def unsubscribe (entryId : String) (socket : Socket) (reg : Registry) : Registry :=
  match alistLookup entryId reg with
  | none => reg
  | some subs =>
    if (subs.filter (fun s => decide (s ≠ socket))).length = 0 then alistDelete entryId reg
    else alistSet entryId (subs.filter (fun s => decide (s ≠ socket))) reg

/-- `unsubscribeSocket` (disconnect sweep): for every tracked entry whose
set contains the socket, delete the socket and prune the key if the set
became empty; entries not containing the socket are untouched. -/
def unsubscribeSocket (socket : Socket) (reg : Registry) : Registry :=
  reg.filterMap (fun e =>
    if socket ∈ e.2 then
      if (e.2.filter (fun s => decide (s ≠ socket))).length = 0 then none
      else some (e.1, e.2.filter (fun s => decide (s ≠ socket)))
    else some e)

/-- `emitUpdate`: no subscribers means no emissions; otherwise compute the
full and stripped projections once and send each subscriber the one its
tier selects.  The result lists the `(socket, payload)` pairs emitted on
event `serviceName:update:entryId`. -/
def emitUpdate (svc : Service) (reg : Registry) (entryId : String) (data : Obj) :
    List (Socket × Obj) :=
  match alistLookup entryId reg with
  | none => []
  | some subs =>
    let fullData := data
    let publicData := stripProtectedFields svc data
    subs.map (fun socket =>
      (socket, if hasElevatedAccess svc socket entryId then fullData else publicData))

/-- Result of a `subscribe` call: the value returned to the caller, the
registry afterwards, and the Socket.io rooms joined. -/
structure SubscribeResult where
  result : Option Obj
  reg : Registry
  joined : List String
deriving Repr

/-- `BaseService.subscribe`: deny unauthenticated, check access, register
the socket and join the room, then fetch the entity; an absent entity
yields `null` after the registration already happened. -/
def subscribe (svc : Service) (db : DB) (entryId : String) (socket : Socket)
    (requiredLevel : AccessLevel) (reg : Registry) : SubscribeResult :=
  if strTruthy socket.userId = false then ⟨none, reg, []⟩
  else
    let userId := socket.userId.getD ""
    if checkSubscriptionAccess svc db userId entryId requiredLevel socket = false then
      ⟨none, reg, []⟩
    else
      let reg' := regAdd reg entryId socket
      let room := svc.serviceName ++ ":" ++ entryId
      match db entryId with
      | none => ⟨none, reg', [room]⟩
      | some entity => ⟨some (filterEntityForSubscriber svc entity socket entryId), reg', [room]⟩

/-- The response envelope `{success, data?, error?, code?}` sent through
the acknowledgment callback. -/
structure Envelope (V : Type) where
  success : Bool
  data : Option V := none
  error : Option String := none
  code : Option Nat := none
deriving Repr

/-- A declared service method as seen by the dispatcher: access level,
handler (which may throw), optional payload schema (`safeParse`), optional
`resolveEntryId`. -/
structure MethodDef (V : Type) where
  name : String
  access : AccessLevel
  handler : Obj → Except String V
  schema : Option (Obj → Except String Obj) := none
  resolveEntryId : Option (Obj → Option String) := none

/-- Entry-id resolution in `registerMethodListener`: `resolveEntryId` when
declared (`?? undefined`), else the payload's `id` field when it is a
string. -/
def resolveEntryIdForPayload {V : Type} (m : MethodDef V) (payload : Obj) : Option String :=
  match m.resolveEntryId with
  | some f => f payload
  | none =>
    match lookupVal "id" payload with
    | some (.vStr s) => some s
    | _ => none

/-- The tail of `registerMethodListener` after validation: the access check
and the handler both run inside the `try`; either throwing is caught by the
single `catch`, which answers with the thrown message and code 500. -/
def dispatchAfterValidate {V : Type} (svc : Service) (db : DB) (m : MethodDef V)
    (socket : Socket) (vp : Obj) : Envelope V :=
  match ensureAccessForMethod svc db m.access socket (resolveEntryIdForPayload m vp) with
  | .error msg => { success := false, error := some msg, code := some 500 }
  | .ok _ =>
    match m.handler vp with
    | .error msg => { success := false, error := some msg, code := some 500 }
    | .ok v => { success := true, data := some v }

/-- `registerMethodListener`: authentication gate (code 401), schema
validation (code 400), then access check and handler under the generic
`catch` (code 500). -/
def dispatch {V : Type} (svc : Service) (db : DB) (m : MethodDef V)
    (socket : Socket) (payload : Obj) : Envelope V :=
  if strTruthy socket.userId = false ∧ m.access ≠ .Public then
    { success := false, error := some "Authentication required", code := some 401 }
  else
    match m.schema with
    | some schema =>
      match schema payload with
      | .error msg =>
        { success := false, error := some ("Validation error: " ++ msg), code := some 400 }
      | .ok vp => dispatchAfterValidate svc db m socket vp
    | none => dispatchAfterValidate svc db m socket payload

/-- A client-side subscription entry: reference count plus the optional
cleanup callback, identified by a numeric tag so invocations can be
counted. -/
structure SubEntry where
  refCount : Int
  cleanup : Option Nat := none
deriving DecidableEq, Repr

/-- The client subscription registry map, keyed by `serviceName:entryId`. -/
abbrev ClientReg := List (String × SubEntry)

/-- `acquire(key)`: bump an existing entry's count (`isNew = false`) or
create one at count 1 (`isNew = true`). -/
def acquire (k : String) (reg : ClientReg) : Bool × ClientReg :=
  match alistLookup k reg with
  | some e => (false, alistSet k { e with refCount := e.refCount + 1 } reg)
  | none => (true, reg ++ [(k, ⟨1, none⟩)])

/-- `release(key)`: decrement; at count `<= 0` invoke the cleanup (when
set), delete the entry and return `true`, else return `false`.  The middle
component lists the cleanup callbacks invoked by this call. -/
def release (k : String) (reg : ClientReg) : Bool × List Nat × ClientReg :=
  match alistLookup k reg with
  | none => (false, [], reg)
  | some e =>
    let r := e.refCount - 1
    if r ≤ 0 then (true, e.cleanup.toList, alistDelete k reg)
    else (false, [], alistSet k ⟨r, e.cleanup⟩ reg)

/-- `setCleanup(key, fn)`: attach the cleanup to an existing entry. -/
def setCleanup (k : String) (c : Nat) (reg : ClientReg) : ClientReg :=
  match alistLookup k reg with
  | some e => alistSet k { e with cleanup := some c } reg
  | none => reg

/-- `n` successive acquires of the same key. -/
def acquireN (n : Nat) (k : String) (reg : ClientReg) : ClientReg :=
  match n with
  | 0 => reg
  | Nat.succ m => acquireN m k (acquire k reg).2

/-- `n` successive releases of the same key, collecting each call's boolean
result and the cleanups invoked. -/
def releaseN (n : Nat) (k : String) (reg : ClientReg) : List Bool × List Nat × ClientReg :=
  match n with
  | 0 => ([], [], reg)
  | Nat.succ m =>
    let r := release k reg
    let rs := releaseN m k r.2.2
    (r.1 :: rs.1, r.2.1 ++ rs.2.1, rs.2.2)

/-- JS object spread `{...o, ...u}`: keys of `o` in order with values
overridden by `u`, followed by the keys only in `u`. -/
def mergeObj (o u : Obj) : Obj :=
  o.map (fun kv => (kv.1, (lookupVal kv.1 u).getD kv.2)) ++
    u.filter (fun kv => (lookupVal kv.1 o).isNone)

/-- `handleUpdate` in `useSubscription`: a truthy `deleted` marker sets the
cached value to `null`; otherwise the push is stored directly when there is
no prior value (`!oldData`) and shallow-merged over it otherwise. -/
def handleUpdate (upd : Obj) (old : Option Obj) : Option Obj :=
  if truthyLookup "deleted" upd then none
  else
    match old with
    | none => some upd
    | some o => some (mergeObj o upd)

/-- The tombstone payload emitted by `BaseService.delete`:
`{ id, deleted: true }`. -/
def tombstone (id : String) : Obj :=
  [("id", .vStr id), ("deleted", .vBool true)]

/-- A heap of JS objects, addressed by allocation index; used to state
mutation facts about `stripProtectedFields`. -/
abbrev Store := List Obj

/-- Read the object at an address (dangling reads yield the empty object;
the theorems only use valid addresses). -/
def storeRead (store : Store) (r : Nat) : Obj :=
  match store, r with
  | [], _ => []
  | o :: _, 0 => o
  | _ :: rest, Nat.succ r => storeRead rest r

/-- The heap behaviour of `stripProtectedFields`:
`const result = { ...entity }` allocates a fresh object that shallow-copies
the argument, the loop deletes each protected field from the fresh object
only, and the fresh reference is returned.  Existing addresses are
untouched. -/
def stripProtectedFieldsOp (svc : Service) (store : Store) (ref : Nat) : Store × Nat :=
  (store ++ [stripProtectedFields svc (storeRead store ref)], store.length)

/-- A concrete service used by the concrete evaluations below: no entry
ACL support, base-class hooks. -/
def svcPlain : Service :=
  { serviceName := "svc" }

/-- A concrete service with `hasEntryACL := true`. -/
def svcAcl : Service :=
  { serviceName := "svc", hasEntryACL := true }

/-- A concrete authenticated socket with no service-level grants. -/
def sockU1 : Socket :=
  { id := "s1", userId := some "u1" }

/-- A concrete socket holding the entity's own identity `e1`. -/
def sockOwner : Socket :=
  { id := "s2", userId := some "e1" }

/-- An empty persistence store. -/
def dbEmpty : DB := fun _ => none

/-- A concrete method requiring Admin with no schema and no
`resolveEntryId`. -/
def methAdmin : MethodDef Bool :=
  { name := "m", access := .Admin, handler := fun _ => .ok true }

/-- A concrete Public method whose handler throws. -/
def methThrowing : MethodDef Bool :=
  { name := "boom", access := .Public, handler := fun _ => .error "kaput" }

/-- A concrete service whose `checkAccess` hook grants self-access
(`userId === entryId`), the override suggested by the source. -/
def svcSelf : Service :=
  { serviceName := "svc", checkAccess := fun u e _ _ => decide (u = e) }

/-- A concrete registry used by witnesses: two tracked entries. -/
def regW : Registry :=
  [("A", [sockU1, sockOwner]), ("B", [sockU1])]

/-- A concrete one-object store used by witnesses. -/
def storeW : Store :=
  [[("id", Val.vStr "e1"), ("email", Val.vStr "x")]]

/-- A concrete update payload carrying a protected field. -/
def dataW : Obj :=
  [("id", Val.vStr "e1"), ("email", Val.vStr "x")]

section Lemmas

variable {α β : Type}

theorem alistLookup_append_self {l : List (String × α)} {k : String} {v : α}
    (h : alistLookup k l = none) : alistLookup k (l ++ [(k, v)]) = some v := by
  induction l with
  | nil => simp [alistLookup]
  | cons kv rest ih =>
    simp only [alistLookup] at h ⊢
    by_cases hk : kv.1 = k
    · simp [hk] at h
    · simpa [hk] using ih (by simpa [hk] using h)

theorem alistLookup_mem {l : List (String × α)} {k : String} {v : α}
    (h : alistLookup k l = some v) : (k, v) ∈ l := by
  induction l with
  | nil => simp [alistLookup] at h
  | cons kv rest ih =>
    obtain ⟨k1, v1⟩ := kv
    simp only [alistLookup] at h
    by_cases hk : k1 = k
    · subst hk
      simp only [if_pos rfl] at h
      obtain rfl := Option.some.inj h
      exact List.mem_cons_self _ _
    · exact List.mem_cons_of_mem _ (ih (by simpa [hk] using h))

theorem alistSet_append_self {l : List (String × α)} {k : String} {v v' : α}
    (h : alistLookup k l = none) : alistSet k v' (l ++ [(k, v)]) = l ++ [(k, v')] := by
  induction l with
  | nil => simp [alistSet]
  | cons kv rest ih =>
    obtain ⟨k1, v1⟩ := kv
    simp only [alistLookup] at h
    by_cases hk : k1 = k
    · simp [hk] at h
    · have h' : alistLookup k rest = none := by simpa [hk] using h
      simp [alistSet, hk, ih h']

theorem alistDelete_append_self {l : List (String × α)} {k : String} {v : α}
    (h : alistLookup k l = none) : alistDelete k (l ++ [(k, v)]) = l := by
  induction l with
  | nil => simp [alistDelete]
  | cons kv rest ih =>
    obtain ⟨k1, v1⟩ := kv
    simp only [alistLookup] at h
    by_cases hk : k1 = k
    · simp [hk] at h
    · have h' : alistLookup k rest = none := by simpa [hk] using h
      simp [alistDelete, hk, ih h']

theorem alistLookup_alistSet_self {l : List (String × α)} {k : String} {v w : α}
    (h : alistLookup k l = some w) : alistLookup k (alistSet k v l) = some v := by
  induction l with
  | nil => simp [alistLookup] at h
  | cons kv rest ih =>
    obtain ⟨k1, v1⟩ := kv
    simp only [alistLookup] at h
    by_cases hk : k1 = k
    · simp [alistSet, hk, alistLookup]
    · have h' : alistLookup k rest = some w := by simpa [hk] using h
      simp [alistSet, hk, alistLookup, ih h']

theorem alistSet_lookup_self {l : List (String × α)} {k : String} {v : α}
    (h : alistLookup k l = some v) : alistSet k v l = l := by
  induction l with
  | nil => simp [alistLookup] at h
  | cons kv rest ih =>
    obtain ⟨k1, v1⟩ := kv
    simp only [alistLookup] at h
    by_cases hk : k1 = k
    · subst hk
      simp only [if_pos rfl] at h
      obtain rfl := Option.some.inj h
      simp [alistSet]
    · have h' : alistLookup k rest = some v := by simpa [hk] using h
      simp [alistSet, hk, ih h']

theorem alistLookup_filter_key (p : String → Bool) (k : String) (l : List (String × α)) :
    alistLookup k (l.filter (fun kv => p kv.1)) =
      if p k then alistLookup k l else none := by
  induction l with
  | nil => simp [alistLookup]
  | cons kv rest ih =>
    by_cases hp : p kv.1
    · by_cases hk : kv.1 = k
      · subst hk
        simp [List.filter_cons, hp, alistLookup]
      · simp [List.filter_cons, hp, alistLookup, hk, ih]
    · by_cases hk : kv.1 = k
      · subst hk
        simp [List.filter_cons, hp, alistLookup, ih]
      · simp [List.filter_cons, hp, alistLookup, hk, ih]

theorem filter_ne_of_not_mem [DecidableEq β] {l : List β} {a : β} (h : a ∉ l) :
    l.filter (fun s => decide (s ≠ a)) = l := by
  induction l with
  | nil => rfl
  | cons x rest ih =>
    have hx : x ≠ a := fun hxa => h (hxa ▸ List.mem_cons_self x rest)
    have hrest : a ∉ rest := fun hr => h (List.mem_cons_of_mem x hr)
    have ih' := ih hrest
    simp only [ne_eq, decide_not] at ih' ⊢
    simp [List.filter_cons, hx, ih']

theorem lookupVal_removeKey (k f : String) (o : Obj) :
    lookupVal k (removeKey f o) = if k = f then none else lookupVal k o := by
  have := alistLookup_filter_key (fun s => decide (s ≠ f)) k o
  simp only [removeKey, lookupVal]
  rw [this]
  by_cases hk : k = f <;> simp [hk]

theorem lookupVal_deleteFields (fs : List String) (k : String) (o : Obj) :
    lookupVal k (deleteFields fs o) = if k ∈ fs then none else lookupVal k o := by
  induction fs generalizing o with
  | nil => simp [deleteFields]
  | cons f rest ih =>
    simp only [deleteFields]
    rw [ih]
    by_cases hr : k ∈ rest
    · simp [hr]
    · by_cases hf : k = f
      · subst hf
        simp [hr, lookupVal_removeKey]
      · simp [hr, hf, lookupVal_removeKey]

theorem alistLookup_append (k : String) (l₁ l₂ : List (String × α)) :
    alistLookup k (l₁ ++ l₂) =
      match alistLookup k l₁ with
      | some v => some v
      | none => alistLookup k l₂ := by
  induction l₁ with
  | nil => simp [alistLookup]
  | cons kv rest ih =>
    by_cases hk : kv.1 = k
    · simp [alistLookup, hk]
    · simp [alistLookup, hk, ih]

theorem alistLookup_mapVal (f : String → α → β) (k : String) (l : List (String × α)) :
    alistLookup k (l.map (fun kv => (kv.1, f kv.1 kv.2))) = (alistLookup k l).map (f k) := by
  induction l with
  | nil => simp [alistLookup]
  | cons kv rest ih =>
    by_cases hk : kv.1 = k
    · subst hk
      simp [alistLookup]
    · simp [alistLookup, hk, ih]

theorem lookupVal_mergeObj (o u : Obj) (k : String) :
    lookupVal k (mergeObj o u) =
      match lookupVal k u with
      | some v => some v
      | none => lookupVal k o := by
  simp only [mergeObj, lookupVal]
  rw [alistLookup_append]
  rw [alistLookup_mapVal (fun s v => (alistLookup s u).getD v) k o]
  rw [alistLookup_filter_key (fun s => (alistLookup s o).isNone) k u]
  cases ho : alistLookup k o with
  | some v₀ =>
    cases hu : alistLookup k u with
    | some w => simp [hu]
    | none => simp [hu]
  | none =>
    cases hu : alistLookup k u <;> simp

theorem mem_alistSet {l : List (String × α)} {k : String} {v : α} {e : String × α}
    (h : e ∈ alistSet k v l) : e = (k, v) ∨ e ∈ l := by
  induction l with
  | nil => simp [alistSet] at h
  | cons kv rest ih =>
    obtain ⟨k1, v1⟩ := kv
    by_cases hk : k1 = k
    · subst hk
      rw [alistSet, if_pos rfl] at h
      rcases List.mem_cons.mp h with h1 | h1
      · exact Or.inl h1
      · exact Or.inr (List.mem_cons_of_mem _ h1)
    · rw [alistSet, if_neg hk] at h
      rcases List.mem_cons.mp h with h1 | h1
      · exact Or.inr (h1 ▸ List.mem_cons_self _ _)
      · rcases ih h1 with h2 | h2
        · exact Or.inl h2
        · exact Or.inr (List.mem_cons_of_mem _ h2)

theorem mem_alistDelete {l : List (String × α)} {k : String} {e : String × α}
    (h : e ∈ alistDelete k l) : e ∈ l := by
  induction l with
  | nil => simp [alistDelete] at h
  | cons kv rest ih =>
    by_cases hk : kv.1 = k
    · rw [alistDelete, if_pos hk] at h
      exact List.mem_cons_of_mem _ h
    · rw [alistDelete, if_neg hk] at h
      rcases List.mem_cons.mp h with h' | h'
      · exact h' ▸ List.mem_cons_self _ _
      · exact List.mem_cons_of_mem _ (ih h')

theorem regAdd_preserves_nonempty (reg : Registry) (entryId : String) (socket : Socket)
    (h : ∀ e ∈ reg, e.2 ≠ []) : ∀ e ∈ regAdd reg entryId socket, e.2 ≠ [] := by
  intro e he
  unfold regAdd at he
  cases hl : alistLookup entryId reg with
  | none =>
    rw [hl] at he
    rcases List.mem_append.mp he with h' | h'
    · exact h e h'
    · obtain rfl := List.mem_singleton.mp h'
      simp
  | some subs =>
    rw [hl] at he
    rcases mem_alistSet he with h' | h'
    · subst h'
      by_cases hm : socket ∈ subs
      · simpa [hm] using List.ne_nil_of_mem hm
      · simp [hm]
    · exact h e h'

theorem unsubscribe_preserves_nonempty (reg : Registry) (entryId : String)
    (socket : Socket) (h : ∀ e ∈ reg, e.2 ≠ []) :
    ∀ e ∈ unsubscribe entryId socket reg, e.2 ≠ [] := by
  intro e he
  unfold unsubscribe at he
  cases hl : alistLookup entryId reg with
  | none =>
    simp only [hl] at he
    exact h e he
  | some subs =>
    simp only [hl] at he
    by_cases hlen : (subs.filter (fun s => decide (s ≠ socket))).length = 0
    · rw [if_pos hlen] at he
      exact h e (mem_alistDelete he)
    · rw [if_neg hlen] at he
      rcases mem_alistSet he with h' | h'
      · subst h'
        intro hnil
        exact hlen (by simpa using congrArg List.length hnil)
      · exact h e h'

theorem regAdd_mem (reg : Registry) (entryId : String) (socket : Socket) :
    ∃ subs, alistLookup entryId (regAdd reg entryId socket) = some subs ∧ socket ∈ subs := by
  unfold regAdd
  cases hl : alistLookup entryId reg with
  | none => exact ⟨[socket], alistLookup_append_self hl, by simp⟩
  | some subs =>
    refine ⟨if socket ∈ subs then subs else subs ++ [socket], alistLookup_alistSet_self hl, ?_⟩
    by_cases h : socket ∈ subs <;> simp [h]

theorem acquire_absent {reg : ClientReg} {k : String} (h : alistLookup k reg = none) :
    acquire k reg = (true, reg ++ [(k, ⟨1, none⟩)]) := by
  simp [acquire, h]

theorem acquireN_append (n : Nat) (k : String) (reg : ClientReg) (e : SubEntry)
    (h : alistLookup k reg = none) :
    acquireN n k (reg ++ [(k, e)]) = reg ++ [(k, ⟨e.refCount + n, e.cleanup⟩)] := by
  induction n generalizing e with
  | zero => simp [acquireN]
  | succ m ih =>
    have hstep : acquire k (reg ++ [(k, e)]) =
        (false, reg ++ [(k, ⟨e.refCount + 1, e.cleanup⟩)]) := by
      simp [acquire, alistLookup_append_self h, alistSet_append_self h]
    simp only [acquireN, hstep]
    rw [ih ⟨e.refCount + 1, e.cleanup⟩]
    have harith : e.refCount + 1 + (m : Int) = e.refCount + ((m + 1 : Nat) : Int) := by
      push_cast
      ring
    simp [harith]

theorem releaseN_append (kk : Nat) (k : String) (reg : ClientReg) (m : Int) (c : Nat)
    (h : alistLookup k reg = none) (hm : (kk : Int) < m) :
    releaseN kk k (reg ++ [(k, ⟨m, some c⟩)]) =
      (List.replicate kk false, [], reg ++ [(k, ⟨m - kk, some c⟩)]) := by
  induction kk generalizing m with
  | zero => simp [releaseN]
  | succ j ih =>
    have hpos : ¬(m - 1 ≤ 0) := by
      have : (j : Int) + 1 < m := by push_cast at hm ⊢; omega
      omega
    have hstep : release k (reg ++ [(k, ⟨m, some c⟩)]) =
        (false, [], reg ++ [(k, ⟨m - 1, some c⟩)]) := by
      simp [release, alistLookup_append_self h, hpos, alistSet_append_self h]
    simp only [releaseN, hstep]
    have hm' : (j : Int) < m - 1 := by push_cast at hm ⊢; omega
    rw [ih (m - 1) hm']
    have harith : m - 1 - (j : Int) = m - ((j + 1 : Nat) : Int) := by
      push_cast
      ring
    simp [harith, List.replicate_succ]

theorem storeRead_append_lt (store : Store) (x : Obj) (i : Nat) (h : i < store.length) :
    storeRead (store ++ [x]) i = storeRead store i := by
  induction store generalizing i with
  | nil => simp at h
  | cons o rest ih =>
    cases i with
    | zero => rfl
    | succ j =>
      simp only [List.length_cons, Nat.succ_lt_succ_iff] at h
      simpa [storeRead] using ih j h

theorem storeRead_append_len (store : Store) (x : Obj) :
    storeRead (store ++ [x]) store.length = x := by
  induction store with
  | nil => rfl
  | cons o rest ih => simpa [storeRead] using ih

end Lemmas

/-- Claim C4: for every registry state satisfying the reachable-state
invariant (no tracked entry has an empty subscriber set) and every peer,
after the disconnect sweep `unsubscribeSocket` the peer is a member of no
entry's subscriber set, and every surviving entry's set is nonempty — an
entry whose set became empty was removed from the registry entirely, so
the registry never contains an empty subscriber set. -/
theorem unsubscribeSocket_removes_peer_and_prunes (reg : Registry) (socket : Socket)
    (h : ∀ e ∈ reg, e.2 ≠ []) :
    ∀ e ∈ unsubscribeSocket socket reg, socket ∉ e.2 ∧ e.2 ≠ [] := by
  intro e he
  rw [unsubscribeSocket, List.mem_filterMap] at he
  obtain ⟨a, ha, hfa⟩ := he
  by_cases hmem : socket ∈ a.2
  · rw [if_pos hmem] at hfa
    by_cases hlen : (a.2.filter (fun s => decide (s ≠ socket))).length = 0
    · rw [if_pos hlen] at hfa
      cases hfa
    · rw [if_neg hlen] at hfa
      obtain rfl := Option.some.inj hfa
      constructor
      · intro hs
        have h2 := (List.mem_filter.mp hs).2
        simp at h2
      · intro hnil
        exact hlen (by simpa using congrArg List.length hnil)
  · rw [if_neg hmem] at hfa
    obtain rfl := Option.some.inj hfa
    exact ⟨hmem, h a ha⟩

/-- Claim C4 witness: sweeping `sockU1` out of the concrete registry
`regW`; the surviving entry keeps `sockOwner` only and is nonempty. -/
theorem unsubscribeSocket_removes_peer_and_prunes_witness :
    (∀ e ∈ regW, e.2 ≠ []) ∧
    ("A", [sockOwner]) ∈ unsubscribeSocket sockU1 regW ∧
    (sockU1 ∉ [sockOwner] ∧ [sockOwner] ≠ []) :=
  ⟨by decide, by decide,
    unsubscribeSocket_removes_peer_and_prunes regW sockU1 (by decide)
      ("A", [sockOwner]) (by decide)⟩

/-- Claim C7: on a registry satisfying the no-empty-set invariant, calling
`unsubscribe` with an entry id and peer pair that is not currently
subscribed leaves the registry unchanged (and, being a total function,
does not throw). -/
theorem unsubscribe_idempotent (reg : Registry) (entryId : String) (socket : Socket)
    (h : ∀ e ∈ reg, e.2 ≠ [])
    (hnot : ∀ subs, alistLookup entryId reg = some subs → socket ∉ subs) :
    unsubscribe entryId socket reg = reg := by
  cases hl : alistLookup entryId reg with
  | none => simp [unsubscribe, hl]
  | some subs =>
    have hns : socket ∉ subs := hnot subs hl
    have hfe : subs.filter (fun s => decide (s ≠ socket)) = subs := filter_ne_of_not_mem hns
    have hne : subs ≠ [] := h (entryId, subs) (alistLookup_mem hl)
    have hlen : ¬(subs.length = 0) := by
      simpa [List.length_eq_zero] using hne
    simp only [unsubscribe, hl, hfe, if_neg hlen]
    exact alistSet_lookup_self hl

/-- Claim C7 witness: unsubscribing the non-subscribed pair
`("A", sockOwner2absent)` — here `sockU1` is not in entry B's set in a
one-entry registry — leaves it unchanged. -/
theorem unsubscribe_idempotent_witness :
    (∀ e ∈ [("A", [sockOwner])], e.2 ≠ []) ∧
    unsubscribe "A" sockU1 [("A", [sockOwner])] = [("A", [sockOwner])] :=
  ⟨by decide,
    unsubscribe_idempotent [("A", [sockOwner])] "A" sockU1 (by decide)
      (by decide)⟩

/-- Claim C8: `ensureAccessForMethod` with required level Read and no
entry id returns without throwing for every authenticated socket,
regardless of service-level grants, the custom hook, or ACLs — an access
path beyond the three the spec enumerates. -/
theorem read_no_entry_always_allowed (svc : Service) (db : DB) (socket : Socket)
    (uid : String) (h1 : socket.userId = some uid) (h2 : uid ≠ "") :
    ensureAccessForMethod svc db .Read socket none = .ok () := by
  have hs : strTruthy socket.userId = true := by rw [h1]; simp [strTruthy, h2]
  have hn : strTruthy (none : Option String) = false := rfl
  cases h3 : hasServiceAccess svc socket .Read <;>
    simp [ensureAccessForMethod, hs, h3, hn]

/-- Claim C8 witness: the concrete grantless authenticated socket passes
the Read-level non-entry access check. -/
theorem read_no_entry_always_allowed_witness :
    sockU1.userId = some "u1" ∧
    ensureAccessForMethod svcPlain dbEmpty .Read sockU1 none = .ok () :=
  ⟨rfl, read_no_entry_always_allowed svcPlain dbEmpty sockU1 "u1" rfl (by decide)⟩

/-- Claim C1 counterexample: a method-level access decision
(`ensureAccessForMethod` at level Read with no entry id) grants access to
an authenticated peer although the service-level path fails, the custom
predicate denies, and the service does not even declare entry-ACL support
— so access is not equivalent to the disjunction of the three grant
paths. -/
theorem access_three_paths_counterexample :
    ensureAccessForMethod svcPlain dbEmpty .Read sockU1 none = .ok () ∧
    hasServiceAccess svcPlain sockU1 .Read = false ∧
    svcPlain.checkAccess "u1" "" .Read sockU1 = false ∧
    svcPlain.hasEntryACL = false :=
  ⟨rfl, rfl, rfl, rfl⟩

/-- Claim C1 (amended): for subscription access decisions
(`checkSubscriptionAccess`) access is granted iff one of the three grant
paths — service-level grant, custom predicate, or (only with declared
entry-ACL support) a matching ACL entry — succeeds, evaluated in that
order with short-circuit; for method access decisions
(`ensureAccessForMethod`) the same equivalence holds for entry-scoped
checks at non-Public levels by authenticated peers, while a Public level
always grants and a non-entry-scoped Read-level check grants to every
authenticated peer regardless of the three paths. -/
theorem access_is_or_of_three_paths (svc : Service) (db : DB)
    (requiredLevel : AccessLevel) (socket : Socket) (uid eid : String) :
    (checkSubscriptionAccess svc db uid eid requiredLevel socket =
      (hasServiceAccess svc socket requiredLevel ||
        svc.checkAccess uid eid requiredLevel socket ||
        (svc.hasEntryACL && checkEntryACL db uid eid requiredLevel))) ∧
    (socket.userId = some uid → uid ≠ "" → eid ≠ "" → requiredLevel ≠ .Public →
      (ensureAccessForMethod svc db requiredLevel socket (some eid) = .ok () ↔
        (hasServiceAccess svc socket requiredLevel ||
          svc.checkAccess uid eid requiredLevel socket ||
          (svc.hasEntryACL && checkEntryACL db uid eid requiredLevel)) = true)) := by
  constructor
  · cases h1 : hasServiceAccess svc socket requiredLevel <;>
      cases h2 : svc.checkAccess uid eid requiredLevel socket <;>
        cases h3 : svc.hasEntryACL <;>
          simp [checkSubscriptionAccess, h1, h2, h3]
  · intro hu hne hee hp
    have hs : strTruthy socket.userId = true := by rw [hu]; simp [strTruthy, hne]
    have he : strTruthy (some eid) = true := by simp [strTruthy, hee]
    have hg : socket.userId.getD "" = uid := by rw [hu]; rfl
    cases h1 : hasServiceAccess svc socket requiredLevel <;>
      cases h2 : svc.checkAccess uid eid requiredLevel socket <;>
        cases h3 : svc.hasEntryACL && checkEntryACL db uid eid requiredLevel <;>
          simp_all [ensureAccessForMethod, hp, hs, he, hg, h1, h2, h3]

/-- Claim C1 witness: for the self-access service, the entry-scoped
Moderate-level method decision on the peer's own id agrees with the
three-path disjunction (here the custom predicate grants). -/
theorem access_is_or_of_three_paths_witness :
    sockU1.userId = some "u1" ∧
    (ensureAccessForMethod svcSelf dbEmpty .Moderate sockU1 (some "u1") = .ok () ↔
      (hasServiceAccess svcSelf sockU1 .Moderate ||
        svcSelf.checkAccess "u1" "u1" .Moderate sockU1 ||
        (svcSelf.hasEntryACL && checkEntryACL dbEmpty "u1" "u1" .Moderate)) = true) :=
  ⟨rfl, (access_is_or_of_three_paths svcSelf dbEmpty .Moderate sockU1 "u1" "u1").2
    rfl (by decide) (by decide) (by decide)⟩

/-- Claim C2: on every update broadcast, each subscriber of the entry
receives exactly the projection its tier selects: the full update data
for an elevated subscriber (user id equal to the entry id, or
service-level Admin), the data with every protected field removed for
everyone else, and a non-elevated subscriber never receives a protected
key. -/
theorem emitUpdate_projection (svc : Service) (reg : Registry) (entryId : String)
    (data : Obj) :
    (∀ subs, alistLookup entryId reg = some subs → ∀ socket ∈ subs,
      (socket, if hasElevatedAccess svc socket entryId then data
        else stripProtectedFields svc data) ∈ emitUpdate svc reg entryId data) ∧
    (∀ socket payload, (socket, payload) ∈ emitUpdate svc reg entryId data →
      (hasElevatedAccess svc socket entryId = true → payload = data) ∧
      (hasElevatedAccess svc socket entryId = false →
        payload = stripProtectedFields svc data ∧
        ∀ f ∈ svc.protectedFields, lookupVal f payload = none)) := by
  constructor
  · intro subs hl socket hs
    simp only [emitUpdate, hl]
    exact List.mem_map_of_mem _ hs
  · intro socket payload hmem
    cases hl : alistLookup entryId reg with
    | none => simp [emitUpdate, hl] at hmem
    | some subs =>
      simp only [emitUpdate, hl, List.mem_map] at hmem
      obtain ⟨s, hs, heq⟩ := hmem
      obtain ⟨rfl, rfl⟩ := Prod.mk.injEq .. ▸ heq
      constructor
      · intro helev
        simp [helev]
      · intro helev
        refine ⟨by simp [helev], ?_⟩
        intro f hf
        simp only [helev, if_neg (by simp : ¬(false = true))]
        rw [stripProtectedFields, lookupVal_deleteFields]
        simp [hf]

/-- Claim C2 witness: broadcasting data with an `email` field to the
owner (`sockOwner`, full data) and to a non-elevated subscriber
(`sockU1`, stripped data with no `email` key). -/
theorem emitUpdate_projection_witness :
    (sockOwner, dataW) ∈ emitUpdate svcPlain [("e1", [sockOwner, sockU1])] "e1" dataW ∧
    (hasElevatedAccess svcPlain sockU1 "e1" = false →
      stripProtectedFields svcPlain dataW = stripProtectedFields svcPlain dataW ∧
      ∀ f ∈ svcPlain.protectedFields,
        lookupVal f (stripProtectedFields svcPlain dataW) = none) := by
  constructor
  · have h := (emitUpdate_projection svcPlain [("e1", [sockOwner, sockU1])] "e1" dataW).1
      [sockOwner, sockU1] (by decide) sockOwner (by decide)
    simpa [(by decide : hasElevatedAccess svcPlain sockOwner "e1" = true)] using h
  · intro helev
    exact ((emitUpdate_projection svcPlain [("e1", [sockOwner, sockU1])] "e1" dataW).2
      sockU1 (stripProtectedFields svcPlain dataW) (by decide)).2 helev

/-- Claim C3 counterexample: a method call rejected by
`ensureAccessForMethod` is answered with code 500 — the same code the
dispatcher uses for internal handler errors — not with a distinct
403-equivalent code. -/
theorem permission_code_counterexample :
    (dispatch svcPlain dbEmpty methAdmin sockU1 []).code = some 500 ∧
    (dispatch svcPlain dbEmpty methAdmin sockU1 []).error = some "Insufficient permissions" ∧
    (dispatch svcPlain dbEmpty methAdmin sockU1 []).code ≠ some 403 ∧
    (dispatch svcPlain dbEmpty methThrowing sockU1 []).code = some 500 :=
  ⟨rfl, rfl, by decide, rfl⟩

/-- Claim C3 (amended): for every inbound method message whose access
check rejects by throwing, the dispatcher replies with a structured error
envelope carrying the thrown message — but with the generic code 500,
the same code used for internal handler errors; only the subscription
listener answers access denials with a 403 code. -/
theorem permission_denied_dispatch (V : Type) (svc : Service) (db : DB)
    (m : MethodDef V) (socket : Socket) (payload : Obj) (msg : String)
    (hauth : ¬(strTruthy socket.userId = false ∧ m.access ≠ .Public))
    (hschema : m.schema = none)
    (hacc : ensureAccessForMethod svc db m.access socket
      (resolveEntryIdForPayload m payload) = .error msg) :
    dispatch svc db m socket payload =
      { success := false, data := none, error := some msg, code := some 500 } := by
  simp only [dispatch, if_neg hauth, hschema, dispatchAfterValidate, hacc]

/-- Claim C3 witness: the concrete Admin-level method call by the
grantless authenticated peer is answered by the 500-coded envelope. -/
theorem permission_denied_dispatch_witness :
    methAdmin.schema = none ∧
    ensureAccessForMethod svcPlain dbEmpty methAdmin.access sockU1
      (resolveEntryIdForPayload methAdmin []) = .error "Insufficient permissions" ∧
    dispatch svcPlain dbEmpty methAdmin sockU1 [] =
      { success := false, data := none,
        error := some "Insufficient permissions", code := some 500 } :=
  ⟨rfl, rfl,
    permission_denied_dispatch Bool svcPlain dbEmpty methAdmin sockU1 []
      "Insufficient permissions" (by decide) rfl rfl⟩

/-- Claim C5: starting from a registry without the key, after `acquire`
plus attaching a cleanup plus `n - 1` further acquires, the first `n - 1`
releases all return false and invoke no cleanup and the entry survives at
count 1; the `n`-th release returns true, invokes the cleanup exactly
once, and removes the entry. -/
theorem refcount_release_semantics (reg : ClientReg) (k : String) (n : Nat) (c : Nat)
    (h0 : alistLookup k reg = none) (hn : 1 ≤ n)
    (r : List Bool × List Nat × ClientReg)
    (hr : r = releaseN (n - 1) k (acquireN (n - 1) k (setCleanup k c (acquire k reg).2))) :
    r.1 = List.replicate (n - 1) false ∧
    r.2.1 = [] ∧
    alistLookup k r.2.2 = some ⟨1, some c⟩ ∧
    (release k r.2.2).1 = true ∧
    (release k r.2.2).2.1 = [c] ∧
    alistLookup k (release k r.2.2).2.2 = none := by
  have hacq : (acquire k reg).2 = reg ++ [(k, (⟨1, none⟩ : SubEntry))] := by
    rw [acquire_absent h0]
  have hset : setCleanup k c (reg ++ [(k, (⟨1, none⟩ : SubEntry))]) =
      reg ++ [(k, (⟨1, some c⟩ : SubEntry))] := by
    simp [setCleanup, alistLookup_append_self h0, alistSet_append_self h0]
  have hacqN : acquireN (n - 1) k (reg ++ [(k, (⟨1, some c⟩ : SubEntry))]) =
      reg ++ [(k, (⟨(n : Int), some c⟩ : SubEntry))] := by
    rw [acquireN_append (n - 1) k reg ⟨1, some c⟩ h0]
    have : (1 : Int) + ((n - 1 : Nat) : Int) = (n : Int) := by omega
    simp [this]
  have hrelN : releaseN (n - 1) k (reg ++ [(k, (⟨(n : Int), some c⟩ : SubEntry))]) =
      (List.replicate (n - 1) false, [],
        reg ++ [(k, (⟨1, some c⟩ : SubEntry))]) := by
    rw [releaseN_append (n - 1) k reg (n : Int) c h0 (by omega)]
    have : (n : Int) - ((n - 1 : Nat) : Int) = 1 := by omega
    simp [this]
  rw [hacq, hset, hacqN, hrelN] at hr
  subst hr
  refine ⟨rfl, rfl, alistLookup_append_self h0, ?_, ?_, ?_⟩
  · simp [release, alistLookup_append_self h0]
  · simp [release, alistLookup_append_self h0]
  · simp only [release, alistLookup_append_self h0]
    have : ((1 : Int) - 1 ≤ 0) := by omega
    simp only [if_pos this]
    rw [alistDelete_append_self h0]
    exact h0

/-- Claim C5 witness: two acquires of a fresh key and one release leave
the entry alive with no cleanup invoked; the second release returns true,
invokes cleanup 7 exactly once, and removes the entry. -/
theorem refcount_release_semantics_witness :
    alistLookup "svc:e1" ([] : ClientReg) = none ∧
    (releaseN 1 "svc:e1" (acquireN 1 "svc:e1"
        (setCleanup "svc:e1" 7 (acquire "svc:e1" []).2))).1 = [false] ∧
    alistLookup "svc:e1"
      (releaseN 1 "svc:e1" (acquireN 1 "svc:e1"
        (setCleanup "svc:e1" 7 (acquire "svc:e1" []).2))).2.2 = some ⟨1, some 7⟩ ∧
    (release "svc:e1"
      (releaseN 1 "svc:e1" (acquireN 1 "svc:e1"
        (setCleanup "svc:e1" 7 (acquire "svc:e1" []).2))).2.2).2.1 = [7] := by
  have h := refcount_release_semantics [] "svc:e1" 2 7 rfl (by decide) _ rfl
  exact ⟨rfl, h.1, h.2.2.1, h.2.2.2.2.1⟩

/-- Claim C6: the client cache bridge evicts (stores `null`) on a truthy
`deleted` marker with no merge, stores the push directly when there is no
prior cached value, and otherwise shallow-merges the push over the prior
value, the push's fields winning. -/
theorem cache_bridge_semantics (upd : Obj) (old : Option Obj) :
    (truthyLookup "deleted" upd = true → handleUpdate upd old = none) ∧
    (truthyLookup "deleted" upd = false →
      (old = none → handleUpdate upd old = some upd) ∧
      (∀ o, old = some o →
        handleUpdate upd old = some (mergeObj o upd) ∧
        ∀ k, lookupVal k (mergeObj o upd) =
          match lookupVal k upd with
          | some v => some v
          | none => lookupVal k o)) := by
  refine ⟨fun hdel => by simp [handleUpdate, hdel], fun hdel => ⟨?_, ?_⟩⟩
  · intro hold
    simp [handleUpdate, hdel, hold]
  · intro o hold
    exact ⟨by simp [handleUpdate, hdel, hold], fun k => lookupVal_mergeObj o upd k⟩

/-- Claim C6 witness: the tombstone emitted by `delete` evicts a cached
value outright, and a non-deleted push merges over its prior value. -/
theorem cache_bridge_semantics_witness :
    truthyLookup "deleted" (tombstone "e1") = true ∧
    handleUpdate (tombstone "e1") (some [("title", Val.vStr "old")]) = none ∧
    handleUpdate [("title", Val.vStr "new")] (some [("title", Val.vStr "old")]) =
      some [("title", Val.vStr "new")] :=
  ⟨rfl,
    (cache_bridge_semantics (tombstone "e1") (some [("title", Val.vStr "old")])).1 rfl,
    by decide⟩

/-- Claim C9: when access is granted but the entity is absent from
persistence, `subscribe` returns null, yet the peer has been registered
in the entry's subscriber set and joined to the broadcast room — the
registration happens before the lookup and is not rolled back. -/
theorem subscribe_registers_despite_missing_entity (svc : Service) (db : DB)
    (reg : Registry) (entryId : String) (socket : Socket)
    (requiredLevel : AccessLevel) (uid : String)
    (h1 : socket.userId = some uid) (h2 : uid ≠ "")
    (h3 : checkSubscriptionAccess svc db uid entryId requiredLevel socket = true)
    (h4 : db entryId = none) :
    (subscribe svc db entryId socket requiredLevel reg).result = none ∧
    (∃ subs,
      alistLookup entryId (subscribe svc db entryId socket requiredLevel reg).reg =
        some subs ∧ socket ∈ subs) ∧
    (subscribe svc db entryId socket requiredLevel reg).joined =
      [svc.serviceName ++ ":" ++ entryId] := by
  have hs : strTruthy socket.userId = true := by rw [h1]; simp [strTruthy, h2]
  have hg : socket.userId.getD "" = uid := by rw [h1]; rfl
  have hsub : subscribe svc db entryId socket requiredLevel reg =
      ⟨none, regAdd reg entryId socket, [svc.serviceName ++ ":" ++ entryId]⟩ := by
    simp [subscribe, hs, hg, h3, h4]
  rw [hsub]
  exact ⟨rfl, regAdd_mem reg entryId socket, rfl⟩

/-- Claim C9 witness: the self-access service grants `sockU1` access to
entry `u1`; with an empty store, subscribe returns null but the socket is
registered and the room joined. -/
theorem subscribe_registers_despite_missing_entity_witness :
    checkSubscriptionAccess svcSelf dbEmpty "u1" "u1" .Read sockU1 = true ∧
    (subscribe svcSelf dbEmpty "u1" sockU1 .Read []).result = none ∧
    (∃ subs,
      alistLookup "u1" (subscribe svcSelf dbEmpty "u1" sockU1 .Read []).reg =
        some subs ∧ sockU1 ∈ subs) :=
  ⟨by decide,
    (subscribe_registers_despite_missing_entity svcSelf dbEmpty [] "u1" sockU1
      .Read "u1" rfl (by decide) (by decide) rfl).1,
    (subscribe_registers_despite_missing_entity svcSelf dbEmpty [] "u1" sockU1
      .Read "u1" rfl (by decide) (by decide) rfl).2.1⟩

/-- Claim C10: `stripProtectedFields` does not mutate its argument: the
heap-level operation allocates a fresh object (a distinct address)
holding the stripped shallow copy, every pre-existing address — in
particular the argument, the full projection `emitUpdate` reuses — is
unchanged and still carries all its fields, protected ones included. -/
theorem stripProtectedFields_no_mutation (svc : Service) (store : Store) (ref : Nat)
    (h : ref < store.length) :
    (stripProtectedFieldsOp svc store ref).2 ≠ ref ∧
    (∀ i, i < store.length →
      storeRead (stripProtectedFieldsOp svc store ref).1 i = storeRead store i) ∧
    storeRead (stripProtectedFieldsOp svc store ref).1 (stripProtectedFieldsOp svc store ref).2 =
      stripProtectedFields svc (storeRead store ref) ∧
    (∀ f v, (f, v) ∈ storeRead store ref →
      (f, v) ∈ storeRead (stripProtectedFieldsOp svc store ref).1 ref) := by
  refine ⟨?_, ?_, ?_, ?_⟩
  · intro heq
    rw [stripProtectedFieldsOp] at heq
    omega
  · intro i hi
    exact storeRead_append_lt store _ i hi
  · exact storeRead_append_len store _
  · intro f v hmem
    simp only [stripProtectedFieldsOp]
    rw [storeRead_append_lt store _ ref h]
    exact hmem

/-- Claim C10 witness: stripping the single stored object leaves address 0
(holding the protected `email` field) unchanged while the fresh copy at
the new address lacks it. -/
theorem stripProtectedFields_no_mutation_witness :
    (0 : Nat) < storeW.length ∧
    storeRead (stripProtectedFieldsOp svcPlain storeW 0).1 0 = storeRead storeW 0 ∧
    (stripProtectedFieldsOp svcPlain storeW 0).2 ≠ 0 :=
  ⟨by decide,
    (stripProtectedFields_no_mutation svcPlain storeW 0 (by decide)).2.1 0 (by decide),
    (stripProtectedFields_no_mutation svcPlain storeW 0 (by decide)).1⟩

end Quickdraw
